import Mathlib

/-!
Verification of the tsfile C++ library (writer/reader engines) against its
natural-language specification.  Each section shallowly embeds one part of
the source (file and line references in the doc comments) and proves or
refutes one claim about it.  Machine integers are modelled as `Nat`/`Int`;
fallible calls return `Except`; the C++ `std::map` containers are modelled
as association lists together with their sorted iteration order.
-/

set_option maxRecDepth 4000

/-- Error codes of the library (utils/errno_define.h).  The numeric values
are irrelevant to the claims; only their distinctness matters, so they are
modelled as an inductive type.  `ok` is `E_OK = 0`. -/
inductive Errno where
  | ok
  | invalidArg
  | alreadyExist
  | deviceNotExist
  | tableNotExist
  | columnNotExist
  | notExist
  | measurementNotExist
  | fileReadErr
  | tsfileCorrupted
  | oom
  | noMoreData
  | unsupportedOrder
  | tsfileWriterMetaErr
  deriving DecidableEq, Repr

/-- Data types of common::TSDataType used by the table model. -/
inductive TsDataType where
  | boolean
  | int32
  | int64
  | float32
  | float64
  | stringType
  | vector
  deriving DecidableEq, Repr

/- ================================================================
C9 : TsFileWriter::open on an existing file
(src/cpp/src/writer/tsfile_writer.cc lines 130-151)
================================================================ -/

/-- Observable writer state touched by `TsFileWriter::open`: whether
`write_file_` / `io_writer_` are set and whether the writer created the
file object itself. -/
structure WriterOpenState where
  write_file_set : Bool
  write_file_created : Bool
  io_writer_set : Bool
  deriving DecidableEq, Repr

/-- A file system modelled as the list of paths that currently exist. -/
def check_file_exist (fs : List String) (file_path : String) : Bool :=
  fs.contains file_path

/-- TsFileWriter::open(file_path, flags, mode), tsfile_writer.cc:134-147.
If `check_file_exist` reports the path present, the function returns
`E_ALREADY_EXIST` before any allocation or file creation; otherwise it
allocates the `WriteFile` and `TsFileIOWriter` objects and creates the
file (creation of a fresh path is modelled as succeeding, since only the
already-exists branch is at issue).  The result carries the status code,
the file system after the call, and the writer state after the call. -/
def tsfile_writer_open (fs : List String) (w : WriterOpenState)
    (file_path : String) : Errno × List String × WriterOpenState :=
  if check_file_exist fs file_path then
    (Errno.alreadyExist, fs, w)
  else
    (Errno.ok, fs ++ [file_path],
      { write_file_set := true, write_file_created := true,
        io_writer_set := true })

/-- C9: for every path at which a file already exists, `TsFileWriter::open`
returns the already-exists error without creating, truncating or opening
any file, leaving the file system and the writer's state unchanged. -/
theorem c9_open_existing_file (fs : List String) (w : WriterOpenState)
    (file_path : String) (h : check_file_exist fs file_path = true) :
    tsfile_writer_open fs w file_path = (Errno.alreadyExist, fs, w) := by
  unfold tsfile_writer_open
  simp [h]

/-- Witness for C9 at a concrete file system holding the target path. -/
theorem c9_open_existing_file_witness :
    check_file_exist ["a.tsfile", "b.tsfile"] "b.tsfile" = true ∧
    tsfile_writer_open ["a.tsfile", "b.tsfile"]
        { write_file_set := false, write_file_created := false,
          io_writer_set := false } "b.tsfile" =
      (Errno.alreadyExist, ["a.tsfile", "b.tsfile"],
        { write_file_set := false, write_file_created := false,
          io_writer_set := false }) :=
  ⟨by decide,
   c9_open_existing_file ["a.tsfile", "b.tsfile"]
     { write_file_set := false, write_file_created := false,
       io_writer_set := false } "b.tsfile" (by decide)⟩

/- ================================================================
C8 : TableResultSet::get_metadata
(src/cpp/src/reader/table_result_set.cc lines 79-81)
================================================================ -/

/-- Metadata object the API contract expects from `resultset_metadata`:
the result column names and their data types. -/
structure ResultSetMetadataModel where
  column_names : List String
  data_types : List TsDataType
  deriving DecidableEq, Repr

/-- State of a TableResultSet relevant to `get_metadata`: the column
names and data types it was constructed with (table_result_set.h
members `column_names_` / `data_types_`, filled by `init`). -/
structure TableResultSetState where
  column_names : List String
  data_types : List TsDataType
  deriving DecidableEq, Repr

/-- TableResultSet::get_metadata(), table_result_set.cc:79-81.  The body
is literally `return nullptr;` — the null pointer is modelled as `none`. -/
def table_result_set_get_metadata (_rs : TableResultSetState) :
    Option ResultSetMetadataModel :=
  none

/-- C8: for the result set over a table with columns
(id:TAG:string, v:FIELD:i64) queried over all columns — whose state holds
exactly the column list `[time, id, v]` with types `[i64, string, i64]` —
`get_metadata` returns the null pointer instead of a metadata object
carrying those names and types.  This refutes the claim that
`resultset_metadata` returns the populated metadata. -/
theorem c8_get_metadata_returns_null :
    table_result_set_get_metadata
        { column_names := ["time", "id", "v"],
          data_types := [TsDataType.int64, TsDataType.stringType,
            TsDataType.int64] } = none ∧
      table_result_set_get_metadata
          { column_names := ["time", "id", "v"],
            data_types := [TsDataType.int64, TsDataType.stringType,
              TsDataType.int64] } ≠
        some { column_names := ["time", "id", "v"],
               data_types := [TsDataType.int64, TsDataType.stringType,
                 TsDataType.int64] } := by
  exact ⟨rfl, by decide⟩

/- ================================================================
C2 : TableQueryExecutor::query ordering switch
(src/cpp/src/reader/table_query_executor.h lines 47-99)
================================================================ -/

/-- Kinds of TsBlockReader the query can leave in `ret_reader`.  A default
constructed `std::unique_ptr` (the error path writes
`std::unique_ptr<EmptyTsBlockReader>()`, a null pointer) is `none`. -/
inductive ReaderKind where
  | deviceOrdered
  deriving DecidableEq, Repr

/-- The two orderings of TableQueryExecutor::TableQueryOrdering. -/
inductive TableQueryOrdering where
  | time
  | device
  deriving DecidableEq, Repr

/-- Results of the three metadata lookups `query` performs, supplied by its
collaborators (`IMetadataQuerier::get_whole_file_metadata`,
`TsFileMeta::get_table_metaindex_node`, `TsFileMeta::get_table_schema`). -/
structure QueryEnv where
  whole_file_metadata : Except Errno Unit
  table_metaindex_node : Except Errno Unit
  table_schema : Except Errno Unit

/-- TableQueryExecutor::query, table_query_executor.h:47-99.  Returns the
status code and the reader stored into `ret_reader`.  The `switch` on the
ordering at lines 87-96 has no `break`: the `DEVICE` case constructs the
`DeviceOrderedTsBlockReader`, stores it, and then falls through into the
`TIME`/`default` case which overwrites `ret` with `E_UNSUPPORTED_ORDER`. -/
def table_query_executor_query (ordering : TableQueryOrdering)
    (env : QueryEnv) : Errno × Option ReaderKind :=
  match env.whole_file_metadata with
  | Except.error e => (e, none)
  | Except.ok _ =>
    let ret : Errno :=
      match env.table_metaindex_node with
      | Except.error e => e
      | Except.ok _ =>
        match env.table_schema with
        | Except.error e => e
        | Except.ok _ => Errno.ok
    if ret ≠ Errno.ok then
      (ret, none)
    else
      match ordering with
      | TableQueryOrdering.device =>
        (Errno.unsupportedOrder, some ReaderKind.deviceOrdered)
      | TableQueryOrdering.time =>
        (Errno.unsupportedOrder, none)

/-- C2 counterexample: with DEVICE ordering and all metadata lookups
succeeding, `query` does not return success — it returns
`E_UNSUPPORTED_ORDER` (while still storing the DeviceOrderedTsBlockReader),
because the `case DEVICE` branch falls through without a `break`. -/
theorem c2_device_query_counterexample :
    table_query_executor_query TableQueryOrdering.device
        { whole_file_metadata := Except.ok (),
          table_metaindex_node := Except.ok (),
          table_schema := Except.ok () } =
      (Errno.unsupportedOrder, some ReaderKind.deviceOrdered) ∧
      Errno.unsupportedOrder ≠ Errno.ok := by
  exact ⟨rfl, by decide⟩

/-- C2 amended: whenever the table metadata loads successfully, a query on
a DEVICE-ordered executor stores a DeviceOrderedTsBlockReader into the
output reader but nevertheless returns the UNSUPPORTED_ORDER error (the
case falls through without a break); a query on a TIME-ordered executor
returns the UNSUPPORTED_ORDER error and stores no reader. -/
theorem c2_query_fallthrough (env : QueryEnv)
    (h1 : env.whole_file_metadata = Except.ok ())
    (h2 : env.table_metaindex_node = Except.ok ())
    (h3 : env.table_schema = Except.ok ()) :
    table_query_executor_query TableQueryOrdering.device env =
        (Errno.unsupportedOrder, some ReaderKind.deviceOrdered) ∧
      table_query_executor_query TableQueryOrdering.time env =
        (Errno.unsupportedOrder, none) := by
  unfold table_query_executor_query
  rw [h1, h2, h3]
  exact ⟨rfl, rfl⟩

/-- Witness for C2 amended at the all-successful lookup environment. -/
theorem c2_query_fallthrough_witness :
    table_query_executor_query TableQueryOrdering.device
        { whole_file_metadata := Except.ok (),
          table_metaindex_node := Except.ok (),
          table_schema := Except.ok () } =
        (Errno.unsupportedOrder, some ReaderKind.deviceOrdered) ∧
      table_query_executor_query TableQueryOrdering.time
          { whole_file_metadata := Except.ok (),
            table_metaindex_node := Except.ok (),
            table_schema := Except.ok () } =
        (Errno.unsupportedOrder, none) :=
  c2_query_fallthrough
    { whole_file_metadata := Except.ok (),
      table_metaindex_node := Except.ok (),
      table_schema := Except.ok () } rfl rfl rfl

/- ================================================================
C10 : memory check division
(src/cpp/src/writer/tsfile_writer.cc lines 501-553, 555-579)
================================================================ -/

/-- Configuration values read by the memory check:
`g_config_value_.chunk_group_size_threshold_`, and the two components of a
chunk writer's `estimate_max_series_mem_size()` — a base overhead present
as soon as the writer exists (page-header estimate plus the statistic
size) and a per-written-point growth of the page buffer. -/
structure MemConfig where
  chunk_group_size_threshold : Int
  base_writer_mem : Int
  point_mem : Int
  deriving Repr

/-- Writer state relevant to the periodic memory check: the record
counters, the currently open chunk writers with their estimated memory
(keyed by (device, measurement)), and the registered schemas
(device → registered measurement names), all as in `TsFileWriter`. -/
structure WriterMemState where
  record_count_since_last_flush : Int
  record_count_for_next_mem_check : Int
  chunk_writers : List ((Nat × Nat) × Int)
  schemas : List (Nat × List Nat)
  deriving DecidableEq, Repr

/-- TsFileWriter::calculate_mem_size_for_all_group, tsfile_writer.cc:501-535:
sums `estimate_max_series_mem_size()` over every existing chunk writer. -/
def calculate_mem_size_for_all_group (s : WriterMemState) : Int :=
  (s.chunk_writers.map (fun p => p.2)).sum

/-- TsFileWriter::flush (effect on this state), tsfile_writer.cc:982-1030:
every chunk writer is sealed and destroyed (`FLUSH_CHUNK` deletes it) and
`record_count_since_last_flush_` is reset to 0. -/
def flush_mem_state (s : WriterMemState) : WriterMemState :=
  { s with chunk_writers := [], record_count_since_last_flush := 0 }

/-- TsFileWriter::check_memory_size_and_may_flush_chunks,
tsfile_writer.cc:541-553.  When the record count reaches the threshold it
computes `mem_size` and sets
`record_count_for_next_mem_check_ = record_count_since_last_flush_ *
chunk_group_size_threshold_ / mem_size` — an integer division whose
divisor is `mem_size`.  A divisor of zero is undefined behaviour in C++
and is modelled as `none`; otherwise the C++ truncating division is
`Int.tdiv`. -/
def check_memory_size_and_may_flush_chunks (cfg : MemConfig)
    (s : WriterMemState) : Option WriterMemState :=
  if s.record_count_since_last_flush ≥ s.record_count_for_next_mem_check then
    let mem_size := calculate_mem_size_for_all_group s
    if mem_size = 0 then
      none
    else
      let next_check := Int.tdiv (s.record_count_since_last_flush *
        cfg.chunk_group_size_threshold) mem_size
      let s2 := { s with record_count_for_next_mem_check := next_check }
      if mem_size > cfg.chunk_group_size_threshold then
        some (flush_mem_state s2)
      else
        some s2
  else
    some s

/-- Association-list update used to model the chunk-writer map: a write to
`(device, measurement)` creates the chunk writer on first use
(do_check_schema, tsfile_writer.cc:321-351) with the base estimate, and
grows the existing writer's estimate by one point otherwise. -/
def chunk_writers_write (cfg : MemConfig)
    (ws : List ((Nat × Nat) × Int)) (key : Nat × Nat) :
    List ((Nat × Nat) × Int) :=
  if (ws.map (fun p => p.1)).contains key then
    ws.map (fun p => if p.1 = key then (p.1, p.2 + cfg.point_mem) else p)
  else
    ws ++ [(key, cfg.base_writer_mem + cfg.point_mem)]

/-- TsFileWriter::write_record, tsfile_writer.cc:555-579: looks up the
device schema (E_DEVICE_NOT_EXIST if absent, and then neither the record
counter nor the memory check runs), writes each point whose measurement
name is registered (unmatched names get a NULL chunk writer and are
skipped), increments `record_count_since_last_flush_`, and runs the
memory check.  `none` propagates the division-by-zero of the check. -/
def write_record (cfg : MemConfig) (s : WriterMemState)
    (device : Nat) (names : List Nat) : Option (Errno × WriterMemState) :=
  match (s.schemas.filter (fun p => p.1 = device)).head? with
  | none => some (Errno.deviceNotExist, s)
  | some dev_schema =>
    let ws := names.foldl (fun acc name =>
      if dev_schema.2.contains name then
        chunk_writers_write cfg acc (device, name)
      else
        acc) s.chunk_writers
    let rc2 := s.record_count_since_last_flush + 1
    let s2 := { s with chunk_writers := ws,
                       record_count_since_last_flush := rc2 }
    match check_memory_size_and_may_flush_chunks cfg s2 with
    | none => none
    | some s3 => some (Errno.ok, s3)

/-- Runs a sequence of `write_record` calls, stopping at the first
undefined division. -/
def run_write_records (cfg : MemConfig) (s : WriterMemState) :
    List (Nat × List Nat) → Option WriterMemState
  | [] => some s
  | op :: rest =>
    match write_record cfg s op.1 op.2 with
    | none => none
    | some (_, s2) => run_write_records cfg s2 rest

/-- C10 counterexample: a concrete write sequence whose measurement names
match no registered schema creates no chunk writer, reaches the memory
check with a summed estimate of 0, and the division that computes the next
check threshold is a division by zero (modelled as `none`).  Device 0 is
registered with measurement 0; both records write only measurement 1; the
initial check threshold is 2. -/
theorem c10_division_by_zero_counterexample :
    run_write_records
        { chunk_group_size_threshold := 1000, base_writer_mem := 100,
          point_mem := 10 }
        { record_count_since_last_flush := 0,
          record_count_for_next_mem_check := 2,
          chunk_writers := [], schemas := [(0, [0])] }
        [(0, [1]), (0, [1])] = none := by
  decide

/-- C10 amended: the division is well-defined whenever at least one chunk
writer exists at check time (every open chunk writer's estimated memory
being positive); only a sequence of writes that created no chunk writer
at all reaches the check with a zero sum. -/
theorem c10_mem_check_defined_of_writer_exists (cfg : MemConfig)
    (s : WriterMemState) (hne : s.chunk_writers ≠ [])
    (hpos : ∀ p ∈ s.chunk_writers, 0 < p.2) :
    check_memory_size_and_may_flush_chunks cfg s ≠ none := by
  have hsum : 0 < calculate_mem_size_for_all_group s := by
    unfold calculate_mem_size_for_all_group
    apply List.sum_pos
    · intro x hx
      rcases List.mem_map.mp hx with ⟨p, hp, rfl⟩
      exact hpos p hp
    · simp [hne]
  have hzero : calculate_mem_size_for_all_group s ≠ 0 := ne_of_gt hsum
  by_cases hrc : s.record_count_since_last_flush ≥
      s.record_count_for_next_mem_check
  · by_cases hth : calculate_mem_size_for_all_group s >
        cfg.chunk_group_size_threshold
    · simp [check_memory_size_and_may_flush_chunks, hrc, hzero, hth]
    · simp [check_memory_size_and_may_flush_chunks, hrc, hzero, hth]
  · simp [check_memory_size_and_may_flush_chunks, hrc]

/-- Concrete configuration for the C10 witness. -/
def c10cfg : MemConfig :=
  { chunk_group_size_threshold := 1000, base_writer_mem := 100,
    point_mem := 10 }

/-- Concrete writer state with one open chunk writer, for the C10
witness. -/
def c10state : WriterMemState :=
  { record_count_since_last_flush := 5,
    record_count_for_next_mem_check := 3,
    chunk_writers := [((0, 0), 110)],
    schemas := [(0, [0])] }

/-- Witness for C10 amended at a concrete state with one open writer. -/
theorem c10_mem_check_defined_witness :
    (c10state.chunk_writers ≠ [] ∧
        ∀ p ∈ c10state.chunk_writers, 0 < p.2) ∧
      check_memory_size_and_may_flush_chunks c10cfg c10state ≠ none :=
  ⟨⟨by decide, by decide⟩,
   c10_mem_check_defined_of_writer_exists c10cfg c10state
     (by decide) (by decide)⟩

/- ================================================================
C7 : SingleDeviceTsBlockReader::has_next row ordering
(src/cpp/src/reader/block/single_device_tsblock_reader.cc lines 74-137)
================================================================ -/

/-- One measurement column context of the single-device row-assembly
reader.  `name` keys the `std::map<std::string, MeasurementColumnContext*>`
`field_column_contexts_` (iterated in ascending key order); `times` is the
stream of timestamps the context still has to deliver.

Modelled from the spec: the page/iterator plumbing behind
`get_current_time` / `move_iter` (common::ColIterator and
TsFileSeriesScanIterator) is not under src/; per spec section 4.6 a
context transparently loads its next page and, once its iterator is
exhausted, is removed from the active set.  A context therefore exposes
its remaining timestamps as one stream and is dropped when empty. -/
structure FieldCtx where
  name : Nat
  times : List Int
  deriving DecidableEq, Repr

/-- The minimum scan of SingleDeviceTsBlockReader::has_next
(single_device_tsblock_reader.cc:84-100): `next_time_` starts at the
sentinel `-1`; each context whose current time `t` satisfies
`next_time_ == -1 || t < next_time_` resets `next_time_` and restarts
`min_time_columns` with itself; a context with `t == next_time_` is
appended.  Returns the final `next_time_` and the names of the collected
min-time columns. -/
def scan_min_time (ctxs : List FieldCtx) : Int × List Nat :=
  ctxs.foldl (fun (acc : Int × List Nat) c =>
    let t := c.times.headD 0
    if acc.1 = -1 ∨ t < acc.1 then
      (t, [c.name])
    else if t = acc.1 then
      (acc.1, acc.2 ++ [c.name])
    else
      acc) (-1, [])

/-- Advancing the min-time columns (fill_measurements at lines 131-134
calls `advance_column` on each collected context; `advance_column`
removes a context that has no further data). -/
def advance_columns (ctxs : List FieldCtx) (mins : List Nat) :
    List FieldCtx :=
  (ctxs.map (fun c =>
    if mins.contains c.name then { c with times := c.times.tail } else c)
  ).filter (fun c => ¬ c.times.isEmpty)

/-- The block-filling loop of has_next (lines 87-111): until the block
holds `block_size` rows (the fuel) or the active context set is empty,
scan for the minimum time, append one row carrying `next_time_` into the
time column (fill_measurements, lines 126-134), and advance the collected
contexts.  Returns the time column of the produced block. -/
def has_next_fill_block : Nat → List FieldCtx → List Int
  | 0, _ => []
  | fuel + 1, ctxs =>
    if ctxs.isEmpty then
      []
    else
      let r := scan_min_time ctxs
      r.1 :: has_next_fill_block fuel (advance_columns ctxs r.2)

/-- Ascending check over adjacent elements of a time column:
`time[i] <= time[i+1]` for all i. -/
def times_ascending : List Int → Bool
  | [] => true
  | [_] => true
  | a :: b :: rest => a ≤ b && times_ascending (b :: rest)

/-- C7: with field column a (name 1) holding the single timestamp -1 and
field column b (name 2) holding timestamps 10 and 20, the produced block's
time column is [10, 20, -1] — not ascending.  Column a's current time -1
coincides with the `next_time_` sentinel, so the scan's
`next_time_ == -1` test treats the accumulator as still unset and lets
column b overwrite the true minimum; the -1 row is emitted only after b
is exhausted.  This refutes the claim that `time[i] <= time[i+1]` holds
for arbitrary i64 timestamps including negative ones. -/
theorem c7_negative_sentinel_breaks_order :
    has_next_fill_block 1024 [⟨1, [-1]⟩, ⟨2, [10, 20]⟩] = [10, 20, -1] ∧
      times_ascending [10, 20, -1] = false := by
  exact ⟨by decide, by decide⟩

/- ================================================================
C1 : TsFileWriter::write_table row routing
(src/cpp/src/writer/tsfile_writer.cc lines 703-782, 824-875)
================================================================ -/

/-- A device identity: the ordered segments of a StringArrayDeviceID
(the tuple of TAG column values, prefixed by the table name in the
source; the prefix is irrelevant to run splitting). -/
def DeviceId : Type := List String

deriving instance DecidableEq, Repr for DeviceId

/-- A tablet as far as row routing is concerned: per row its device
identity (from the TAG columns) and its timestamp, plus the tablet's
capacity `max_row_num_`.  `rows.length` is `cur_row_size_`. -/
structure TabletModel where
  rows : List (DeviceId × Int)
  max_row_num : Nat
  deriving DecidableEq, Repr

/-- TsFileWriter::split_tablet_by_device, tsfile_writer.cc:768-782.
`last_device_id` starts as the sentinel `StringArrayDeviceID
("last_device_id")`; whenever row i's device differs from the previous
one, the pair (previous device, i) is appended; after the loop the pair
(last device, cur_row_size) is appended.  The first emitted pair is the
sentinel with end index 0 (skipped by the caller). -/
def split_tablet_by_device (devices : List DeviceId) :
    List (DeviceId × Nat) :=
  let step := fun (acc : List (DeviceId × Nat) × DeviceId)
      (p : Nat × DeviceId) =>
    if p.2 ≠ acc.2 then (acc.1 ++ [(acc.2, p.1)], p.2) else acc
  let r := devices.enum.foldl step ([], ["last_device_id"])
  r.1 ++ [(r.2, devices.length)]

/-- What one device's chunk writers received: the timestamps passed to
the device's TimeChunkWriter and the row indices passed to each of its
ValueChunkWriters (`value_write_column` passes every column the same row
range, so one row-index log represents them all). -/
structure DevWriteLog where
  time_log : List Int
  value_row_log : List Nat
  deriving DecidableEq, Repr

/-- Appends one run's writes to the log of `dev` (creating the entry on
first write, as do_check_schema_table creates the device's chunk
writers). -/
def dev_logs_append (logs : List (DeviceId × DevWriteLog))
    (dev : DeviceId) (times : List Int) (value_rows : List Nat) :
    List (DeviceId × DevWriteLog) :=
  if (logs.map (fun p => p.1)).contains dev then
    logs.map (fun p =>
      if p.1 = dev then
        (p.1, { time_log := p.2.time_log ++ times,
                value_row_log := p.2.value_row_log ++ value_rows })
      else p)
  else
    logs ++ [(dev, { time_log := times, value_row_log := value_rows })]

/-- TsFileWriter::write_table, aligned-table branch,
tsfile_writer.cc:715-743.  For each (device, end_index) pair produced by
split_tablet_by_device (pairs with end index 0 are skipped), the code
writes the timestamps of rows `0 .. cur_row_size-1` into the device's
time chunk writer (line 728-730) and, via `value_write_column`
(lines 840-875), rows `0 .. max_row_num-1` of every field column into the
device's value chunk writers — the run bounds `[s, e)` of the pair are
not consulted by either loop.

Modelled from the spec: the member initializer of `table_aligned_` lives
in the missing header tsfile_writer.h; the table data model is the
aligned path (spec section 4.1 step 2: for aligned tables every field
column of the schema has a value chunk writer, exactly what
do_check_schema_table builds), so `table_aligned_` is taken as true. -/
def write_table_aligned (t : TabletModel) : List (DeviceId × DevWriteLog) :=
  let pairs := split_tablet_by_device (t.rows.map (fun r => r.1))
  pairs.foldl (fun logs pair =>
    if pair.2 = 0 then
      logs
    else
      dev_logs_append logs pair.1 (t.rows.map (fun r => r.2))
        (List.range t.max_row_num)) []

/-- C1: for the two-device tablet with rows (device A, time 1) and
(device B, time 2), the maximal runs are A = rows [0,1) and B = rows
[1,2), yet device B's chunk writers receive the timestamps of BOTH rows
and the value rows 0 and 1 (and so does A): the aligned write path
ignores the run bounds, so rows outside a run are written into that run's
device.  The claim that exactly the rows s..e-1 and no others reach the
run's chunk writers is refuted. -/
theorem c1_aligned_write_ignores_runs :
    write_table_aligned { rows := [(["A"], 1), (["B"], 2)],
                          max_row_num := 2 } =
        [(["A"], { time_log := [1, 2], value_row_log := [0, 1] }),
         (["B"], { time_log := [1, 2], value_row_log := [0, 1] })] ∧
      ({ time_log := [1, 2], value_row_log := [0, 1] } : DevWriteLog) ≠
        { time_log := [2], value_row_log := [1] } := by
  exact ⟨by decide, by decide⟩

/- ================================================================
C4 : ValueChunkWriter::seal_cur_page and the single-page chunk
(src/cpp/src/writer/value_chunk_writer.cc lines 73-161)
================================================================ -/

/-- One page handed to seal_cur_page: an identifier for its compressed
payload bytes (`get_cur_page_data`) and one for its page statistic
(`value_page_writer_.get_statistic()`). -/
structure PageSeal where
  dat : Nat
  stat : Nat
  deriving DecidableEq, Repr

/-- Serialized pieces appended to the chunk byte stream `chunk_data_`:
a page header (its size fields), a serialized page-statistics block, or a
page payload. -/
inductive ChunkTok where
  | hdr
  | stat (s : Nat)
  | dat (d : Nat)
  deriving DecidableEq, Repr

/-- ValueChunkWriter state across page seals: `num_of_pages_`, the chunk
byte stream, the saved first page (`first_page_data_` together with
`first_page_statistic_`, present between the first and second seal), and
the chunk statistic.  `chunk_statistic_` starts empty and is merged with
each sealed page's statistic (`merge_with`, line 75-76); since
`Statistic::merge_with` itself is outside src/, the chunk statistic is
kept as the list of page statistics merged into it, in merge order (its
image in the free statistics monoid). -/
structure VCWState where
  num_of_pages : Nat
  chunk_data : List ChunkTok
  first_page : Option PageSeal
  chunk_stat_merges : List Nat
  deriving DecidableEq, Repr

/-- A fresh ValueChunkWriter after init (value_chunk_writer.cc:33-53). -/
def vcw_init : VCWState :=
  { num_of_pages := 0, chunk_data := [], first_page := none,
    chunk_stat_merges := [] }

/-- ValueChunkWriter::seal_cur_page, value_chunk_writer.cc:73-127.
The chunk statistic is merged with the page statistic first.  With
`num_of_pages_ == 0` and `end_chunk`, the page is written with header and
data but WITHOUT a statistics block (`write_to_chunk(..., stat=false,
...)`, lines 80-86); with `num_of_pages_ == 0` and not `end_chunk`, only
the header is written and the page's data and statistic are saved
(lines 87-101).  From the second page on, a `num_of_pages_ == 1` seal
first writes the saved first page's statistic and payload in
(`write_first_page_data`, lines 103-107 and 135-143), and the current
page is then written WITH its statistics block (lines 109-116).
`num_of_pages_` is incremented at the end (line 118). -/
def seal_cur_page (end_chunk : Bool) (page : PageSeal) (s : VCWState) :
    VCWState :=
  let merged := s.chunk_stat_merges ++ [page.stat]
  if s.num_of_pages = 0 then
    if end_chunk then
      { num_of_pages := 1,
        chunk_data := s.chunk_data ++ [ChunkTok.hdr, ChunkTok.dat page.dat],
        first_page := s.first_page,
        chunk_stat_merges := merged }
    else
      { num_of_pages := 1,
        chunk_data := s.chunk_data ++ [ChunkTok.hdr],
        first_page := some page,
        chunk_stat_merges := merged }
  else
    let flushed_first : List ChunkTok :=
      if s.num_of_pages = 1 then
        match s.first_page with
        | some fp => [ChunkTok.stat fp.stat, ChunkTok.dat fp.dat]
        | none => []
      else []
    { num_of_pages := s.num_of_pages + 1,
      chunk_data := s.chunk_data ++ flushed_first ++
        [ChunkTok.hdr, ChunkTok.stat page.stat, ChunkTok.dat page.dat],
      first_page := if s.num_of_pages = 1 then none else s.first_page,
      chunk_stat_merges := merged }

/-- Building a chunk: the non-final pages are sealed with
`end_chunk=false` as they fill up, and `end_encode_chunk`
(value_chunk_writer.cc:145-161) seals the final non-empty page with
`end_chunk=true`. -/
def build_value_chunk (earlier : List PageSeal) (last_page : PageSeal) :
    VCWState :=
  seal_cur_page true last_page
    (earlier.foldl (fun s p => seal_cur_page false p s) vcw_init)

/-- The serialized form of one complete page inside a multi-page chunk:
header, statistics block, payload. -/
def page_section (p : PageSeal) : List ChunkTok :=
  [ChunkTok.hdr, ChunkTok.stat p.stat, ChunkTok.dat p.dat]

/-- Chunk header marker byte.  Modelled from the spec: the marker is
written by TsFileIOWriter::start_flush_chunk, which is not under src/;
per spec section 6 it is 0x01 (CHUNK_HEADER_MARKER) for a multi-page
chunk or 0x05 (ONLY_ONE_PAGE_CHUNK_HEADER_MARKER, tsfile_common.cc:36)
for a single-page chunk, with the chunk's mask bits OR'd in. -/
def chunk_header_marker (num_pages mask : Nat) : Nat :=
  (if num_pages = 1 then 5 else 1) ||| mask

/-- Sealing a page onto a state that already holds at least two fully
written pages appends one full header/statistics/payload section;
the `end_chunk` flag plays no role once `num_of_pages_ > 0`
(value_chunk_writer.cc:102-117). -/
theorem seal_cur_page_from_flushed (e : Bool) (page : PageSeal)
    (s : VCWState) (hnum : 2 ≤ s.num_of_pages) :
    seal_cur_page e page s =
      { num_of_pages := s.num_of_pages + 1,
        chunk_data := s.chunk_data ++ page_section page,
        first_page := s.first_page,
        chunk_stat_merges := s.chunk_stat_merges ++ [page.stat] } := by
  have h0 : s.num_of_pages ≠ 0 := by omega
  have h1 : s.num_of_pages ≠ 1 := by omega
  simp [seal_cur_page, h0, h1, page_section]

/-- Folding further non-final seals over a state that already holds at
least two fully written pages appends one full section per page. -/
theorem seal_false_fold_from_flushed (rest : List PageSeal)
    (st : VCWState) (hnum : 2 ≤ st.num_of_pages)
    (hpend : st.first_page = none) :
    rest.foldl (fun s p => seal_cur_page false p s) st =
      { num_of_pages := st.num_of_pages + rest.length,
        chunk_data := st.chunk_data ++ rest.flatMap page_section,
        first_page := none,
        chunk_stat_merges :=
          st.chunk_stat_merges ++ rest.map (fun p => p.stat) } := by
  induction rest generalizing st with
  | nil =>
    rw [List.foldl_nil]
    cases st
    simp_all
  | cons q rest ih =>
    rw [List.foldl_cons, seal_cur_page_from_flushed false q st hnum, hpend,
      ih _ (Nat.le_succ_of_le hnum) rfl]
    simp only [VCWState.mk.injEq]
    refine ⟨by simp; omega, by simp [List.append_assoc], trivial,
      by simp⟩

/-- State after sealing exactly two non-final pages from a fresh writer:
both pages sit in the stream as full sections (the first one written in
retroactively when the second is sealed) and no page is pending. -/
theorem seal_false_two_pages (q0 q1 : PageSeal) :
    (([q0, q1] : List PageSeal).foldl
        (fun s p => seal_cur_page false p s) vcw_init) =
      { num_of_pages := 2,
        chunk_data := page_section q0 ++ page_section q1,
        first_page := none,
        chunk_stat_merges := [q0.stat, q1.stat] } := by
  simp [seal_cur_page, vcw_init, page_section]

/-- Full state of a chunk built from at least two pages: every page sits
in the stream as a complete header/statistics/payload section and the
chunk statistic merged every page's statistic in order. -/
theorem build_value_chunk_multi (q0 : PageSeal) (rest : List PageSeal)
    (last_page : PageSeal) :
    build_value_chunk (q0 :: rest) last_page =
      { num_of_pages := rest.length + 2,
        chunk_data := ((q0 :: rest) ++ [last_page]).flatMap page_section,
        first_page := none,
        chunk_stat_merges :=
          ((q0 :: rest) ++ [last_page]).map (fun p => p.stat) } := by
  cases rest with
  | nil =>
    simp [build_value_chunk, seal_cur_page, vcw_init, page_section]
  | cons q1 rest =>
    rw [build_value_chunk,
      show q0 :: q1 :: rest = [q0, q1] ++ rest from rfl,
      List.foldl_append, seal_false_two_pages,
      seal_false_fold_from_flushed rest _ (Nat.le_refl 2) rfl,
      seal_cur_page_from_flushed true last_page _
        (show 2 ≤ 2 + rest.length by omega)]
    simp only [VCWState.mk.injEq]
    refine ⟨by simp; omega, ?_, trivial, by simp⟩
    simp [page_section, List.append_assoc]

/-- C4: for a chunk sealed as a single page (`num_pages = 1`), the chunk
stream is the page header and payload with NO statistics block, the
chunk statistic is the empty statistic merged with exactly the sole
page's statistic, and the header marker is `0x05 ||| mask`; for a chunk
of two or more pages, every page — including the first, whose statistics
are written in retroactively when the second page is sealed — appears in
the stream as a full header/statistics/payload section, and the marker
is `0x01 ||| mask`. -/
theorem c4_single_and_multi_page_chunks (last_page : PageSeal)
    (earlier : List PageSeal) (mask : Nat) (hne : earlier ≠ []) :
    (build_value_chunk [] last_page).chunk_data =
        [ChunkTok.hdr, ChunkTok.dat last_page.dat] ∧
      (build_value_chunk [] last_page).chunk_stat_merges =
        [last_page.stat] ∧
      chunk_header_marker (build_value_chunk [] last_page).num_of_pages
        mask = 5 ||| mask ∧
      (build_value_chunk earlier last_page).chunk_data =
        (earlier ++ [last_page]).flatMap page_section ∧
      chunk_header_marker
        (build_value_chunk earlier last_page).num_of_pages mask =
        1 ||| mask := by
  rcases earlier with _ | ⟨q0, rest⟩
  · exact absurd rfl hne
  · refine ⟨?_, ?_, ?_, ?_, ?_⟩
    · simp [build_value_chunk, seal_cur_page, vcw_init]
    · simp [build_value_chunk, seal_cur_page, vcw_init]
    · simp [build_value_chunk, seal_cur_page, vcw_init,
        chunk_header_marker]
    · rw [build_value_chunk_multi]
    · rw [build_value_chunk_multi]
      simp [chunk_header_marker]

/-- Witness for C4 at a concrete two-page chunk (pages with payload ids
1 and 2 and statistic ids 11 and 12, mask 64). -/
theorem c4_single_and_multi_page_chunks_witness :
    (([⟨1, 11⟩] : List PageSeal) ≠ [] ∧
      (build_value_chunk [] ⟨2, 12⟩).chunk_data =
        [ChunkTok.hdr, ChunkTok.dat 2]) ∧
      (build_value_chunk [⟨1, 11⟩] ⟨2, 12⟩).chunk_data =
        ([⟨1, 11⟩, ⟨2, 12⟩] : List PageSeal).flatMap page_section :=
  ⟨⟨by decide, (c4_single_and_multi_page_chunks ⟨2, 12⟩ [⟨1, 11⟩] 64
      (by decide)).1⟩,
   (c4_single_and_multi_page_chunks ⟨2, 12⟩ [⟨1, 11⟩] 64 (by decide)).2.2.2.1⟩

/- ================================================================
C6 : TsFileIOReader::load_tsfile_meta and the trailing magic
(src/cpp/src/file/tsfile_io_reader.cc lines 118-212)
================================================================ -/

/-- LEB128 var-uint reader (common::SerializationUtil::read_var_uint,
whose implementation is outside src/; modelled from the spec, section 6:
var-uint is LEB128).  A truncated stream yields the bytes read so far —
mirroring that TsFileMeta::deserialize_from ignores the return codes of
its sub-reads (tsfile_common.cc:210-259 always returns E_OK). -/
def read_var_uint : List Nat → Nat × List Nat
  | [] => (0, [])
  | b :: rest =>
    if b < 128 then
      (b, rest)
    else
      let r := read_var_uint rest
      (b % 128 + 128 * r.1, r.2)

/-- Length-prefixed string reader (SerializationUtil::read_var_str):
a var-uint length followed by that many bytes. -/
def read_var_str (l : List Nat) : List Nat × List Nat :=
  let r := read_var_uint l
  (r.2.take r.1, r.2.drop r.1)

/-- Big-endian u32 at the head of the byte list
(SerializationUtil::read_ui32; endianness modelled from the spec,
section 6: the trailer meta size is a big-endian u32).  Missing bytes
read as 0. -/
def read_ui32 (l : List Nat) : Nat :=
  l.getD 0 0 * 16777216 + l.getD 1 0 * 65536 + l.getD 2 0 * 256 +
    l.getD 3 0

/-- Big-endian i64 at the head of the byte list, kept as its raw 8-byte
value (SerializationUtil::read_i64). -/
def read_i64_raw (l : List Nat) : Nat × List Nat :=
  ((l.take 8).foldl (fun acc b => acc * 256 + b) 0, l.drop 8)

/-- Parsed MetaIndexNode shell.  Modelled from the spec, section 6:
`child_count (var-uint) || (compare_key (var-str) || offset (i64))^N ||
end_offset (i64) || node_type (u8)` (MetaIndexNode::
device_deserialize_from is outside src/). -/
structure MetaIndexNodeShell where
  children : List (List Nat × Nat)
  end_offset : Nat
  node_type : Nat
  deriving DecidableEq, Repr

/-- Reads `n` MetaIndexNode children. -/
def read_node_children : Nat → List Nat →
    List (List Nat × Nat) × List Nat
  | 0, l => ([], l)
  | n + 1, l =>
    let k := read_var_str l
    let off := read_i64_raw k.2
    let rest := read_node_children n off.2
    ((k.1, off.1) :: rest.1, rest.2)

/-- Reads one MetaIndexNode (spec section 6 layout). -/
def read_meta_index_node (l : List Nat) : MetaIndexNodeShell × List Nat :=
  let cnt := read_var_uint l
  let ch := read_node_children cnt.1 cnt.2
  let eo := read_i64_raw ch.2
  let nt := (eo.2.headD 0, eo.2.tail)
  ({ children := ch.1, end_offset := eo.1, node_type := nt.1 }, nt.2)

/-- Reads the per-table (name, device index root) entries. -/
def read_table_nodes : Nat → List Nat →
    List (List Nat × MetaIndexNodeShell) × List Nat
  | 0, l => ([], l)
  | n + 1, l =>
    let k := read_var_str l
    let node := read_meta_index_node k.2
    let rest := read_table_nodes n node.2
    ((k.1, node.1) :: rest.1, rest.2)

/-- Reads one serialized TableSchema.  Modelled from the spec, sections 3
and 6: a TableSchema is an ordered list of ColumnSchema entries
`(name, type, encoding, compression, category)`; the count is var-uint,
the name a var-str and the four attributes one byte each
(TableSchema::deserialize is outside src/). -/
def read_column_schemas : Nat → List Nat → List Nat
  | 0, l => l
  | n + 1, l =>
    let k := read_var_str l
    read_column_schemas n (k.2.drop 4)

/-- Reads the table-schema dictionary entries. -/
def read_table_schemas : Nat → List Nat → List Nat
  | 0, l => l
  | n + 1, l =>
    let name := read_var_str l
    let cnt := read_var_uint name.2
    read_table_schemas n (read_column_schemas cnt.1 cnt.2)

/-- Reads the serialized bloom filter.  Modelled from the spec, sections
4.7 and 6: `(size, hash_count, bitmap_bytes)`; the writer emits a single
0 byte when no filter is present (tsfile_common.cc:195-199), so a zero
size ends the filter (BloomFilter::deserialize_from is outside src/). -/
def read_bloom_filter (l : List Nat) : List Nat :=
  let sz := read_var_uint l
  if sz.1 = 0 then
    sz.2
  else
    let hashes := read_var_uint sz.2
    hashes.2.drop sz.1

/-- The result of parsing a TsFileMeta region. -/
structure TsFileMetaModel where
  table_nodes : List (List Nat × MetaIndexNodeShell)
  meta_offset : Nat
  properties : List (List Nat × List Nat)
  deriving DecidableEq, Repr

/-- Reads the (key, value) property pairs. -/
def read_properties : Nat → List Nat → List (List Nat × List Nat)
  | 0, _ => []
  | n + 1, l =>
    let k := read_var_str l
    let v := read_var_str k.2
    (k.1, v.1) :: read_properties n v.2

/-- TsFileMeta::deserialize_from, tsfile_common.cc:210-259: reads the
table index-node map, the table schemas, `meta_offset_`, the bloom
filter and the property map in that order.  The C++ function ignores all
sub-read return codes and always returns E_OK, so the parse is total. -/
def tsfile_meta_deserialize_from (l : List Nat) : TsFileMetaModel :=
  let tcnt := read_var_uint l
  let tnodes := read_table_nodes tcnt.1 tcnt.2
  let scnt := read_var_uint tnodes.2
  let after_schemas := read_table_schemas scnt.1 scnt.2
  let moff := read_i64_raw after_schemas
  let after_bloom := read_bloom_filter moff.2
  let pcnt := read_var_uint after_bloom
  { table_nodes := tnodes.1, meta_offset := moff.1,
    properties := read_properties pcnt.1 after_bloom.tail }

/-- The six magic bytes "TsFile" (MAGIC_STRING_TSFILE,
tsfile_common.cc:31). -/
def magic_string_tsfile : List Nat := [84, 115, 70, 105, 108, 101]

/-- TsFileIOReader::load_tsfile_meta, tsfile_io_reader.cc:131-212.
The file is the byte list `f`.  The code reads the last
`alloc_size = min(1024, file_size)` bytes, takes the meta size from the
four bytes at absolute offset `file_size - 10` (the pointer
`read_buf + alloc_size - 10`), and then parses the `meta_size` bytes at
absolute offset `file_size - meta_size - 10` — re-reading them from the
file when they fall outside the first read's window, which fails with
E_FILE_READ_ERR when that offset lies before the start of the file.
The six trailing magic bytes are read into the buffer but never
compared against anything. -/
def load_tsfile_meta (f : List Nat) : Except Errno TsFileMetaModel :=
  let file_size := f.length
  let alloc_size := min 1024 file_size
  let tsfile_meta_size := read_ui32 (f.drop (file_size - 10))
  if tsfile_meta_size + 10 > alloc_size then
    if tsfile_meta_size + 10 ≤ file_size then
      Except.ok (tsfile_meta_deserialize_from
        ((f.drop (file_size - tsfile_meta_size - 10)).take tsfile_meta_size))
    else
      Except.error Errno.fileReadErr
  else
    Except.ok (tsfile_meta_deserialize_from
      ((f.drop (file_size - tsfile_meta_size - 10)).take tsfile_meta_size))

/-- TsFileIOReader::load_tsfile_meta_if_necessary,
tsfile_io_reader.cc:118-129: loads the meta unless already cached and
marks it ready exactly when the load succeeded.  Returns the load result
and the new `tsfile_meta_ready_` flag. -/
def load_tsfile_meta_if_necessary (ready : Bool) (f : List Nat) :
    Except Errno Unit × Bool :=
  if ready then
    (Except.ok (), true)
  else
    match load_tsfile_meta f with
    | Except.ok _ => (Except.ok (), true)
    | Except.error e => (Except.error e, false)

/-- A concrete 35-byte file whose trailing 6 bytes are "XXXXXX" — not
the magic "TsFile": 13 junk body bytes, a 12-byte empty TsFileMeta
(0 tables, 0 schemas, meta_offset 0, no bloom filter, 0 properties),
the big-endian u32 size 12, and the corrupt magic. -/
def c6_bad_magic_file : List Nat :=
  [7, 7, 7, 7, 7, 7, 7, 7, 7, 7, 7, 7, 7] ++
    [0, 0, 0, 0, 0, 0, 0, 0, 0, 0, 0, 0] ++
    [0, 0, 0, 12] ++ [88, 88, 88, 88, 88, 88]

/-- C6 counterexample: the loader accepts the file whose trailing magic
bytes are not "TsFile": it returns the parsed empty meta with no
TSFILE_CORRUPTED error, and `load_tsfile_meta_if_necessary` caches the
result (`tsfile_meta_ready_` becomes true).  No code path of
load_tsfile_meta compares the magic. -/
theorem c6_bad_magic_load_succeeds :
    load_tsfile_meta c6_bad_magic_file =
        Except.ok { table_nodes := [], meta_offset := 0, properties := [] } ∧
      load_tsfile_meta_if_necessary false c6_bad_magic_file =
        (Except.ok (), true) ∧
      c6_bad_magic_file.drop (c6_bad_magic_file.length - 6) ≠
        magic_string_tsfile := by
  refine ⟨rfl, rfl, by decide⟩

/-- Reading the big-endian u32 at the head of a list only inspects its
first four bytes. -/
theorem read_ui32_append (xs ys : List Nat) (h : 4 ≤ xs.length) :
    read_ui32 (xs ++ ys) = read_ui32 xs := by
  unfold read_ui32
  rw [List.getD_append _ _ _ _ (by omega),
    List.getD_append _ _ _ _ (by omega),
    List.getD_append _ _ _ _ (by omega),
    List.getD_append _ _ _ _ (by omega)]

/-- C6 amended: the reader does not verify the trailing magic bytes at
all — the outcome of load_tsfile_meta is unchanged when the six trailing
bytes of the file are replaced by any other six bytes (in particular no
magic mismatch can produce TSFILE_CORRUPTED, and a successful parse is
cached regardless of the magic). -/
theorem c6_magic_never_checked (body m1 m2 : List Nat)
    (hb : 10 ≤ body.length) (h1 : m1.length = 6) (h2 : m2.length = 6) :
    load_tsfile_meta (body ++ m1) = load_tsfile_meta (body ++ m2) := by
  have hsize : ∀ m : List Nat, m.length = 6 →
      read_ui32 ((body ++ m).drop ((body ++ m).length - 10)) =
        read_ui32 (body.drop (body.length + 6 - 10)) := by
    intro m hm
    have hl : (body ++ m).length = body.length + 6 := by simp [hm]
    rw [hl, List.drop_append_of_le_length (by omega),
      read_ui32_append _ _ (by simp; omega)]
  have hslice : ∀ (m : List Nat) (s : Nat), m.length = 6 →
      s + 10 ≤ body.length + 6 →
      ((body ++ m).drop (body.length + 6 - s - 10)).take s =
        (body.drop (body.length + 6 - s - 10)).take s := by
    intro m s hm hle
    rw [List.drop_append_of_le_length (by omega),
      List.take_append_of_le_length (by simp; omega)]
  have hl1 : (body ++ m1).length = body.length + 6 := by simp [h1]
  have hl2 : (body ++ m2).length = body.length + 6 := by simp [h2]
  simp only [load_tsfile_meta]
  rw [hsize m1 h1, hsize m2 h2, hl1, hl2]
  by_cases hc1 : read_ui32 (body.drop (body.length + 6 - 10)) + 10 >
      min 1024 (body.length + 6)
  · rw [if_pos hc1, if_pos hc1]
    by_cases hc2 : read_ui32 (body.drop (body.length + 6 - 10)) + 10 ≤
        body.length + 6
    · rw [if_pos hc2, if_pos hc2, hslice m1 _ h1 hc2, hslice m2 _ h2 hc2]
    · rw [if_neg hc2, if_neg hc2]
  · rw [if_neg hc1, if_neg hc1]
    have hc2 : read_ui32 (body.drop (body.length + 6 - 10)) + 10 ≤
        body.length + 6 :=
      le_trans (not_lt.mp hc1) (min_le_right _ _)
    rw [hslice m1 _ h1 hc2, hslice m2 _ h2 hc2]

/-- The 29 bytes of the C6 file below the magic. -/
def c6_body : List Nat :=
  [7, 7, 7, 7, 7, 7, 7, 7, 7, 7, 7, 7, 7] ++
    [0, 0, 0, 0, 0, 0, 0, 0, 0, 0, 0, 0] ++ [0, 0, 0, 12]

/-- Witness for C6 amended: replacing the corrupt magic "XXXXXX" by the
true magic "TsFile" does not change the load result. -/
theorem c6_magic_never_checked_witness :
    (10 ≤ c6_body.length ∧
        ([88, 88, 88, 88, 88, 88] : List Nat).length = 6 ∧
        magic_string_tsfile.length = 6) ∧
      load_tsfile_meta (c6_body ++ [88, 88, 88, 88, 88, 88]) =
        load_tsfile_meta (c6_body ++ magic_string_tsfile) :=
  ⟨⟨by decide, by decide, by decide⟩,
   c6_magic_never_checked c6_body [88, 88, 88, 88, 88, 88]
     magic_string_tsfile (by decide) (by decide) (by decide)⟩

/- ================================================================
C5 : MetaIndexNode::binary_search_children
(src/cpp/src/common/tsfile_common.cc lines 262-327)
================================================================ -/

/-- Node types of a MetaIndexNode. -/
inductive MetaNodeType where
  | leafMeasurement
  | internalMeasurement
  | leafDevice
  | internalDevice
  deriving DecidableEq, Repr

/-- A MetaIndexNode: children as (compare_key, offset) pairs, the node's
own end offset and its type. -/
structure MetaIndexNodeModel where
  children : List (List Nat × Int)
  end_offset : Int
  node_type : MetaNodeType
  deriving DecidableEq, Repr

/-- The bisection loop of binary_search_children
(tsfile_common.cc:282-304), reindexed over Nat: `lo` stands for the C++
`l + 1` (so `l = -1` is `lo = 0`) and the loop runs while `l < h - 1`,
i.e. `lo < h`; `m = (l + h) / 2 = (lo + h - 1) / 2`.  On an exact
compare hit the loop breaks with `l = m` and `found`; a strictly greater
child key shrinks `h` to `m`; a strictly smaller one raises `l` to `m`.
Returns the final `l` (`none` for `-1`) and the `found` flag; the fuel
is at least `h - lo` at every call. -/
def binary_search_loop (keys : List (List Nat)) (key : List Nat) :
    Nat → Nat → Nat → Option Nat × Bool
  | 0, lo, _ => (if lo = 0 then none else some (lo - 1), false)
  | fuel + 1, lo, h =>
    if lo < h then
      let m := (lo + h - 1) / 2
      let c := keys.getD m []
      if c = key then
        (some m, true)
      else if key < c then
        binary_search_loop keys key fuel lo m
      else
        binary_search_loop keys key fuel (m + 1) h
    else
      (if lo = 0 then none else some (lo - 1), false)

/-- MetaIndexNode::binary_search_children, tsfile_common.cc:262-327.
A LEAF_MEASUREMENT node with a single child whose compare key is the
empty string is the aligned marker and takes `l = 0` unconditionally
(lines 273-281); otherwise the bisection loop runs, and `l == -1` or a
failed exact search yields E_NOT_EXIST (lines 305-312).  The returned
entry is `children_[l]` and the end offset is `children_[l+1].offset`
when a successor exists, else the node's `end_offset_`
(lines 314-319). -/
def binary_search_children (node : MetaIndexNodeModel) (key : List Nat)
    (exact_search : Bool) : Except Errno ((List Nat × Int) × Int) :=
  if node.node_type = MetaNodeType.leafMeasurement ∧
      node.children.length = 1 ∧
      (node.children.getD 0 ([], 0)).1 = [] then
    Except.ok (node.children.getD 0 ([], 0),
      if 0 = node.children.length - 1 then node.end_offset
      else (node.children.getD 1 ([], 0)).2)
  else
    match binary_search_loop (node.children.map (fun c => c.1)) key
        node.children.length 0 node.children.length with
    | (none, _) => Except.error Errno.notExist
    | (some l, found) =>
      if exact_search ∧ found = false then
        Except.error Errno.notExist
      else
        Except.ok (node.children.getD l ([], 0),
          if l = node.children.length - 1 then node.end_offset
          else (node.children.getD (l + 1) ([], 0)).2)

/-- In a strictly sorted key list, positions respect the order. -/
theorem sorted_keys_getD_lt (keys : List (List Nat))
    (hs : List.Pairwise (· < ·) keys) (i j : Nat) (hij : i < j)
    (hj : j < keys.length) :
    keys.getD i [] < keys.getD j [] := by
  have hi : i < keys.length := lt_trans hij hj
  rw [List.getD_eq_getElem _ _ hi, List.getD_eq_getElem _ _ hj]
  exact List.pairwise_iff_getElem.mp hs i j hi hj hij

/-- Characterization of the bisection loop on a strictly sorted key
list: a `found` result is an exact hit; an unfound index `l` is the
largest key strictly below the search key with its successor strictly
above (or absent); `none` means every key is strictly above. -/
theorem binary_search_loop_spec (keys : List (List Nat)) (key : List Nat)
    (hs : List.Pairwise (· < ·) keys) :
    ∀ (fuel lo h : Nat), lo ≤ h → h ≤ keys.length → h - lo ≤ fuel →
    (lo = 0 ∨ keys.getD (lo - 1) [] < key) →
    (h = keys.length ∨ (h < keys.length ∧ key < keys.getD h [])) →
    (∀ l, binary_search_loop keys key fuel lo h = (some l, true) →
        l < keys.length ∧ keys.getD l [] = key) ∧
      (∀ l, binary_search_loop keys key fuel lo h = (some l, false) →
        l < keys.length ∧ keys.getD l [] < key ∧
          (l + 1 = keys.length ∨
            (l + 1 < keys.length ∧ key < keys.getD (l + 1) []))) ∧
      ((binary_search_loop keys key fuel lo h).1 = none →
        ∀ j, j < keys.length → key < keys.getD j []) := by
  intro fuel
  induction fuel with
  | zero =>
    intro lo h hlh hhn hfuel hlow hhigh
    have hEq : h = lo := by omega
    by_cases hlo : lo = 0
    · have hr : binary_search_loop keys key 0 lo h = (none, false) := by
        simp [binary_search_loop, hlo]
      refine ⟨?_, ?_, ?_⟩
      · intro l hl
        rw [hr] at hl
        exact absurd hl (by simp)
      · intro l hl
        rw [hr] at hl
        exact absurd hl (by simp)
      · intro _ j hj
        rcases hhigh with hh | ⟨hhl, hh⟩
        · omega
        · rw [hEq, hlo] at hh
          have h0j : keys.getD 0 [] ≤ keys.getD j [] := by
            rcases Nat.eq_zero_or_pos j with hj0 | hj0
            · rw [hj0]
            · exact le_of_lt (sorted_keys_getD_lt keys hs 0 j hj0 hj)
          exact lt_of_lt_of_le hh h0j
    · have hr : binary_search_loop keys key 0 lo h =
          (some (lo - 1), false) := by
        simp [binary_search_loop, hlo]
      refine ⟨?_, ?_, ?_⟩
      · intro l hl
        rw [hr] at hl
        exact absurd hl (by simp)
      · intro l hl
        rw [hr] at hl
        have hl2 : lo - 1 = l := by
          have := Prod.mk.injEq _ _ _ _ ▸ hl
          simpa using hl
        subst hl2
        refine ⟨by omega, ?_, ?_⟩
        · rcases hlow with h0 | h0
          · exact absurd h0 hlo
          · exact h0
        · rcases hhigh with hh | ⟨hhl, hh⟩
          · left; omega
          · right
            have hsucc : lo - 1 + 1 = lo := by omega
            refine ⟨by omega, ?_⟩
            rw [hsucc, ← hEq]
            exact hh
      · intro hnone
        rw [hr] at hnone
        exact absurd hnone (by simp)
  | succ fuel ih =>
    intro lo h hlh hhn hfuel hlow hhigh
    by_cases hcond : lo < h
    · by_cases heq : keys.getD ((lo + h - 1) / 2) [] = key
      · have hr : binary_search_loop keys key (fuel + 1) lo h =
            (some ((lo + h - 1) / 2), true) := by
          simp only [binary_search_loop]
          rw [if_pos hcond, if_pos heq]
        refine ⟨?_, ?_, ?_⟩
        · intro l hl
          rw [hr] at hl
          have hl2 : (lo + h - 1) / 2 = l := by simpa using hl
          subst hl2
          exact ⟨by omega, heq⟩
        · intro l hl
          rw [hr] at hl
          exact absurd hl (by simp)
        · intro hnone
          rw [hr] at hnone
          exact absurd hnone (by simp)
      · by_cases hlt : key < keys.getD ((lo + h - 1) / 2) []
        · have hr : binary_search_loop keys key (fuel + 1) lo h =
              binary_search_loop keys key fuel lo ((lo + h - 1) / 2) := by
            simp only [binary_search_loop]
            rw [if_pos hcond, if_neg heq, if_pos hlt]
          rw [hr]
          exact ih lo ((lo + h - 1) / 2) (by omega) (by omega) (by omega)
            hlow (Or.inr ⟨by omega, hlt⟩)
        · have hgt : keys.getD ((lo + h - 1) / 2) [] < key :=
            lt_of_le_of_ne (not_lt.mp hlt) heq
          have hr : binary_search_loop keys key (fuel + 1) lo h =
              binary_search_loop keys key fuel ((lo + h - 1) / 2 + 1) h := by
            simp only [binary_search_loop]
            rw [if_pos hcond, if_neg heq, if_neg hlt]
          rw [hr]
          exact ih ((lo + h - 1) / 2 + 1) h (by omega) hhn (by omega)
            (Or.inr (by simpa using hgt)) hhigh
    · have hEq : h = lo := by omega
      by_cases hlo : lo = 0
      · have hr : binary_search_loop keys key (fuel + 1) lo h =
            (none, false) := by
          simp only [binary_search_loop]
          rw [if_neg hcond, if_pos hlo]
        refine ⟨?_, ?_, ?_⟩
        · intro l hl
          rw [hr] at hl
          exact absurd hl (by simp)
        · intro l hl
          rw [hr] at hl
          exact absurd hl (by simp)
        · intro _ j hj
          rcases hhigh with hh | ⟨hhl, hh⟩
          · omega
          · rw [hEq, hlo] at hh
            have h0j : keys.getD 0 [] ≤ keys.getD j [] := by
              rcases Nat.eq_zero_or_pos j with hj0 | hj0
              · rw [hj0]
              · exact le_of_lt (sorted_keys_getD_lt keys hs 0 j hj0 hj)
            exact lt_of_lt_of_le hh h0j
      · have hr : binary_search_loop keys key (fuel + 1) lo h =
            (some (lo - 1), false) := by
          simp only [binary_search_loop]
          rw [if_neg hcond, if_neg hlo]
        refine ⟨?_, ?_, ?_⟩
        · intro l hl
          rw [hr] at hl
          exact absurd hl (by simp)
        · intro l hl
          rw [hr] at hl
          have hl2 : lo - 1 = l := by simpa using hl
          subst hl2
          refine ⟨by omega, ?_, ?_⟩
          · rcases hlow with h0 | h0
            · exact absurd h0 hlo
            · exact h0
          · rcases hhigh with hh | hh
            · left; omega
            · right
              have hsucc : lo - 1 + 1 = lo := by omega
              rw [hsucc, ← hEq]
              exact hh
        · intro hnone
          rw [hr] at hnone
          exact absurd hnone (by simp)

/-- Bridging getD on the mapped key list and on the children list. -/
theorem children_keys_getD (children : List (List Nat × Int)) (i : Nat)
    (hi : i < children.length) :
    (children.map (fun c => c.1)).getD i [] =
      (children.getD i ([], 0)).1 := by
  rw [List.getD_eq_getElem _ _ (by simpa using hi),
    List.getD_eq_getElem _ _ hi]
  simp

/-- Strict order of children compare keys by position. -/
theorem children_key_lt (node : MetaIndexNodeModel)
    (hs : List.Pairwise (fun a b : List Nat × Int => a.1 < b.1)
      node.children)
    (i j : Nat) (hij : i < j) (hj : j < node.children.length) :
    (node.children.getD i ([], 0)).1 < (node.children.getD j ([], 0)).1 := by
  have hk := sorted_keys_getD_lt (node.children.map (fun c => c.1))
    (by exact List.Pairwise.map _ (fun a b hab => hab) hs) i j hij
    (by simpa using hj)
  rwa [children_keys_getD _ i (lt_trans hij hj),
    children_keys_getD _ j hj] at hk

/-- C5: on a MetaIndexNode whose children are sorted by compare_key,
binary_search_children (a) under the aligned marker (LEAF_MEASUREMENT,
single child, empty compare key) returns child 0 with the node's end
offset unconditionally; (b) otherwise returns the child holding the
largest key less than or equal to the search key — provided an exact
search also finds an equal key — together with the successor child's
offset when a successor exists and the node's end_offset otherwise;
(c) returns E_NOT_EXIST when the search key is smaller than every child
key; and (d) returns E_NOT_EXIST when exact_search is set and no child
key equals the search key. -/
theorem c5_binary_search_children_spec (node : MetaIndexNodeModel)
    (key : List Nat) (exact_search : Bool)
    (hs : List.Pairwise (fun a b : List Nat × Int => a.1 < b.1)
      node.children) :
    (node.node_type = MetaNodeType.leafMeasurement →
        node.children.length = 1 →
        (node.children.getD 0 ([], 0)).1 = [] →
        binary_search_children node key exact_search =
          Except.ok (node.children.getD 0 ([], 0), node.end_offset)) ∧
      (∀ i, i < node.children.length →
        ¬(node.node_type = MetaNodeType.leafMeasurement ∧
            node.children.length = 1 ∧
            (node.children.getD 0 ([], 0)).1 = []) →
        (node.children.getD i ([], 0)).1 ≤ key →
        (∀ j, i < j → j < node.children.length →
          key < (node.children.getD j ([], 0)).1) →
        (exact_search = true → (node.children.getD i ([], 0)).1 = key) →
        binary_search_children node key exact_search =
          Except.ok (node.children.getD i ([], 0),
            if i = node.children.length - 1 then node.end_offset
            else (node.children.getD (i + 1) ([], 0)).2)) ∧
      (¬(node.node_type = MetaNodeType.leafMeasurement ∧
            node.children.length = 1 ∧
            (node.children.getD 0 ([], 0)).1 = []) →
        (∀ j, j < node.children.length →
          key < (node.children.getD j ([], 0)).1) →
        binary_search_children node key exact_search =
          Except.error Errno.notExist) ∧
      (¬(node.node_type = MetaNodeType.leafMeasurement ∧
            node.children.length = 1 ∧
            (node.children.getD 0 ([], 0)).1 = []) →
        exact_search = true →
        (∀ j, j < node.children.length →
          (node.children.getD j ([], 0)).1 ≠ key) →
        binary_search_children node key exact_search =
          Except.error Errno.notExist) := by
  have hs2 : List.Pairwise (· < ·)
      (node.children.map (fun c => c.1)) :=
    List.Pairwise.map _ (fun a b hab => hab) hs
  have hspec := binary_search_loop_spec
    (node.children.map (fun c => c.1)) key hs2 node.children.length 0
    node.children.length (Nat.zero_le _) (by simp) (by omega)
    (Or.inl rfl) (Or.inl (by simp))
  rcases hspec with ⟨hfound, hunfound, hnone⟩
  refine ⟨?_, ?_, ?_, ?_⟩
  · intro h1 h2 h3
    unfold binary_search_children
    rw [if_pos ⟨h1, h2, h3⟩, h2]
    simp
  · intro i hi hna hle hgt hex
    unfold binary_search_children
    rw [if_neg hna]
    rcases hr : binary_search_loop (node.children.map (fun c => c.1)) key
        node.children.length 0 node.children.length with ⟨lopt, found⟩
    cases lopt with
    | none =>
      exfalso
      have hall := hnone (by rw [hr]) i (by simpa using hi)
      rw [children_keys_getD _ i hi] at hall
      exact absurd hle (not_le.mpr hall)
    | some l =>
      cases found with
      | true =>
        have hl := hfound l hr
        rcases hl with ⟨hln, hlk⟩
        have hln2 : l < node.children.length := by simpa using hln
        rw [children_keys_getD _ l hln2] at hlk
        have hil : i = l := by
          rcases Nat.lt_trichotomy i l with h0 | h0 | h0
          · have := hgt l h0 hln2
            rw [hlk] at this
            exact absurd this (lt_irrefl key)
          · exact h0
          · have := children_key_lt node hs l i h0 hi
            rw [hlk] at this
            exact absurd (lt_of_lt_of_le this hle) (lt_irrefl key)
        rw [hil]
        simp only [hr]
        rw [if_neg (by simp)]
      | false =>
        have hl := hunfound l hr
        rcases hl with ⟨hln, hlk, hlsucc⟩
        have hln2 : l < node.children.length := by simpa using hln
        rw [children_keys_getD _ l hln2] at hlk
        have hine : (node.children.getD i ([], 0)).1 ≠ key := by
          intro hik
          have hli : l < i := by
            rcases Nat.lt_trichotomy l i with h0 | h0 | h0
            · exact h0
            · rw [h0, hik] at hlk
              exact absurd hlk (lt_irrefl key)
            · have := children_key_lt node hs i l h0 hln2
              rw [hik] at this
              exact absurd (lt_trans this hlk) (lt_irrefl key)
          rcases hlsucc with hsc | ⟨hscl, hsc⟩
          · simp only [List.length_map] at hsc
            omega
          · have hsl : l + 1 < node.children.length := by
              simpa using hscl
            rw [children_keys_getD _ (l + 1) hsl] at hsc
            rcases Nat.lt_or_ge (l + 1) i with h1 | h1
            · have := children_key_lt node hs (l + 1) i h1 hi
              rw [hik] at this
              exact absurd (lt_trans hsc this) (lt_irrefl key)
            · have hi1 : i = l + 1 := by omega
              rw [← hi1, hik] at hsc
              exact absurd hsc (lt_irrefl key)
        have hexf : exact_search = false := by
          cases hb : exact_search with
          | true => exact absurd (hex hb) hine
          | false => rfl
        have hil : i = l := by
          have hik : (node.children.getD i ([], 0)).1 < key :=
            lt_of_le_of_ne hle hine
          rcases Nat.lt_trichotomy i l with h0 | h0 | h0
          · have := hgt l h0 hln2
            exact absurd (lt_trans this hlk) (lt_irrefl key)
          · exact h0
          · rcases hlsucc with hsc | ⟨hscl, hsc⟩
            · simp only [List.length_map] at hsc
              omega
            · have hsl : l + 1 < node.children.length := by
                simpa using hscl
              rw [children_keys_getD _ (l + 1) hsl] at hsc
              rcases Nat.lt_or_ge (l + 1) i with h1 | h1
              · have := children_key_lt node hs (l + 1) i h1 hi
                exact absurd (lt_trans hsc (lt_trans this hik))
                  (lt_irrefl key)
              · have hi1 : i = l + 1 := by omega
                rw [← hi1] at hsc
                exact absurd (lt_trans hsc hik) (lt_irrefl key)
        rw [hil]
        simp only [hr]
        rw [if_neg (by simp [hexf])]
  · intro hna hall
    unfold binary_search_children
    rw [if_neg hna]
    rcases hr : binary_search_loop (node.children.map (fun c => c.1)) key
        node.children.length 0 node.children.length with ⟨lopt, found⟩
    cases lopt with
    | none => rw [hr]
    | some l =>
      exfalso
      cases found with
      | true =>
        have hl := hfound l hr
        rcases hl with ⟨hln, hlk⟩
        have hln2 : l < node.children.length := by simpa using hln
        rw [children_keys_getD _ l hln2] at hlk
        have := hall l hln2
        rw [hlk] at this
        exact absurd this (lt_irrefl key)
      | false =>
        have hl := hunfound l hr
        rcases hl with ⟨hln, hlk, _⟩
        have hln2 : l < node.children.length := by simpa using hln
        rw [children_keys_getD _ l hln2] at hlk
        have := hall l hln2
        exact absurd (lt_trans this hlk) (lt_irrefl key)
  · intro hna hex hnone2
    unfold binary_search_children
    rw [if_neg hna]
    rcases hr : binary_search_loop (node.children.map (fun c => c.1)) key
        node.children.length 0 node.children.length with ⟨lopt, found⟩
    cases lopt with
    | none => rw [hr]
    | some l =>
      cases found with
      | true =>
        exfalso
        have hl := hfound l hr
        rcases hl with ⟨hln, hlk⟩
        have hln2 : l < node.children.length := by simpa using hln
        rw [children_keys_getD _ l hln2] at hlk
        exact absurd hlk (hnone2 l hln2)
      | false =>
        rw [hr]
        simp [hex]

/-- Concrete node for the C5 witness: three children sorted by key. -/
def c5node : MetaIndexNodeModel :=
  { children := [([97], 10), ([99], 20), ([101], 30)],
    end_offset := 40, node_type := MetaNodeType.leafDevice }

/-- Witness for C5: exact search for the byte string [99] on the
concrete node returns the ([99], 20) child, with the successor child's offset 30 as the end
offset. -/
theorem c5_binary_search_children_spec_witness :
    List.Pairwise (fun a b : List Nat × Int => a.1 < b.1) c5node.children ∧
      binary_search_children c5node [99] true = Except.ok (([99], 20), 30) :=
  ⟨by decide, by
    have h := (c5_binary_search_children_spec c5node [99] true
      (by decide)).2.1 1 (by decide) (by decide) (by decide)
      (by
        intro j h1 h2
        have hj : j = 2 := by
          simp only [c5node, List.length_cons, List.length_nil] at h2
          omega
        subst hj
        decide)
      (by
        intro _
        decide)
    simpa using h⟩

/- ================================================================
C3 : TSMIterator and timeseries-index construction
(src/cpp/src/common/tsfile_common.cc lines 41-176)
================================================================ -/

/-- One ChunkMeta accumulated by the writer: the measurement name
(modelled as an interned id carrying the byte-wise order of
common::String), the chunk header's file offset, the chunk's mask, its
data type and its statistic (an id standing for the chunk's Statistic
object). -/
structure ChunkMetaModel where
  measurement_name : Nat
  offset_of_chunk_header : Int
  mask : Nat
  data_type : Nat
  stat : Nat
  deriving DecidableEq, Repr

/-- Placeholder chunk meta for defaulted list access. -/
def default_chunk_meta : ChunkMetaModel :=
  { measurement_name := 0, offset_of_chunk_header := 0, mask := 0,
    data_type := 0, stat := 0 }

/-- The offset comparator handed to std::sort (tsfile_common.cc:78-82);
std::sort leaves the order of equal offsets unspecified, so the
deterministic mergeSort stands for one of its admissible outcomes. -/
def offset_le (a b : ChunkMetaModel) : Bool :=
  a.offset_of_chunk_header ≤ b.offset_of_chunk_header

/-- Sorting one measurement's chunk metas by header offset ascending. -/
def sort_by_offset (ms : List ChunkMetaModel) : List ChunkMetaModel :=
  ms.mergeSort offset_le

/-- First-appearance order of measurement names (the `order` vector of
TSMIterator::init, tsfile_common.cc:65-73). -/
def first_appearance (ms : List ChunkMetaModel) : List Nat :=
  ms.foldl (fun acc cm =>
    if acc.contains cm.measurement_name then acc
    else acc ++ [cm.measurement_name]) []

/-- Phase 1 of TSMIterator::init (tsfile_common.cc:59-92): a chunk
group's meta list is regrouped by measurement name in first-appearance
order, each name's group sorted by offset_of_chunk_header ascending. -/
def init_regroup (ms : List ChunkMetaModel) : List ChunkMetaModel :=
  (first_appearance ms).flatMap (fun k =>
    sort_by_offset (ms.filter (fun cm => cm.measurement_name = k)))

/-- Phase 2 of TSMIterator::init (tsfile_common.cc:96-112): for one
device, the std::map keyed by measurement name — iterated in ascending
name order — whose vectors are filled in the order of the regrouped
list. -/
def tsm_group_by_measurement (ms : List ChunkMetaModel) :
    List (Nat × List ChunkMetaModel) :=
  (((init_regroup ms).map (fun cm => cm.measurement_name)).toFinset.sort
      (· ≤ ·)).map
    (fun k => (k, (init_regroup ms).filter
      (fun cm => cm.measurement_name = k)))

/-- std::map-style assignment `m[k] = v`: overwrite the first entry with
the key, append when absent. -/
def map_put {β : Type} : List (Nat × β) → Nat → β → List (Nat × β)
  | [], k, v => [(k, v)]
  | p :: m, k, v =>
    if p.1 = k then (k, v) :: m else p :: map_put m k v

/-- std::map-style lookup. -/
def map_get {β : Type} : List (Nat × β) → Nat → Option β
  | [], _ => none
  | p :: m, k => if p.1 = k then some p.2 else map_get m k

/-- The per-device map built by TSMIterator::init
(`tsm_chunk_meta_info_[device_id] = tmp`, tsfile_common.cc:107-108 —
an assignment, so a device occurring again OVERWRITES its earlier map).
The iteration order across devices is not used by the claims. -/
def tsm_build (groups : List (Nat × List ChunkMetaModel)) :
    List (Nat × List (Nat × List ChunkMetaModel)) :=
  groups.foldl (fun m g => map_put m g.1 (tsm_group_by_measurement g.2)) []

/-- The TimeseriesIndex assembled by TSMIterator::get_next for one
measurement group: the ts meta type byte, the data type, the ordered
list of per-chunk statistics merged into the index statistic
(Statistic::merge_with is outside src/, so the merged statistic is kept
as the group's image in the free statistics monoid), and the serialized
chunk metas, each paired with its serialize_statistic flag. -/
structure TimeseriesIndexModel where
  ts_type : Nat
  data_type : Nat
  stat_merges : List Nat
  chunk_metas : List (ChunkMetaModel × Bool)
  deriving DecidableEq, Repr

/-- TSMIterator::get_next, tsfile_common.cc:124-176: with the group's
metas in hand, `multi_chunks = size > 1`; the meta type is
`(multi ? 1 : 0) | first_chunk.mask` (line 148); the data type is the
first chunk's (line 149); each chunk meta is serialized with
`serialize_statistic = multi_chunks` and merged into the index statistic
(TimeseriesIndex::add_chunk_meta, tsfile_common.cc:41-51). -/
def tsm_get_next_index (metas : List ChunkMetaModel) :
    TimeseriesIndexModel :=
  { ts_type := (if 1 < metas.length then 1 else 0) |||
      (metas.headD default_chunk_meta).mask,
    data_type := (metas.headD default_chunk_meta).data_type,
    stat_merges := metas.map (fun cm => cm.stat),
    chunk_metas := metas.map (fun cm => (cm, decide (1 < metas.length))) }

/-- The (device, measurement, TimeseriesIndex) structure the iterator
emits at close. -/
def tsm_emit (groups : List (Nat × List ChunkMetaModel)) :
    List (Nat × List (Nat × TimeseriesIndexModel)) :=
  (tsm_build groups).map (fun d =>
    (d.1, d.2.map (fun g => (g.1, tsm_get_next_index g.2))))

/-- Membership in the first-appearance fold. -/
theorem first_appearance_mem_aux (k : Nat) (ms : List ChunkMetaModel) :
    ∀ acc : List Nat,
      (k ∈ ms.foldl (fun acc2 cm =>
          if acc2.contains cm.measurement_name then acc2
          else acc2 ++ [cm.measurement_name]) acc ↔
        k ∈ acc ∨ k ∈ ms.map (fun cm => cm.measurement_name)) := by
  induction ms with
  | nil => intro acc; simp
  | cons cm ms ih =>
    intro acc
    simp only [List.foldl_cons, List.map_cons, List.mem_cons]
    by_cases hc : acc.contains cm.measurement_name
    · rw [if_pos hc, ih acc]
      have hmem : cm.measurement_name ∈ acc := by simpa using hc
      constructor
      · tauto
      · rintro (h | h | h)
        · tauto
        · subst h; tauto
        · tauto
    · rw [if_neg hc, ih (acc ++ [cm.measurement_name])]
      simp only [List.mem_append, List.mem_singleton]
      tauto

/-- The first-appearance names are exactly the names in the group. -/
theorem first_appearance_mem (k : Nat) (ms : List ChunkMetaModel) :
    k ∈ first_appearance ms ↔
      k ∈ ms.map (fun cm => cm.measurement_name) := by
  rw [first_appearance, first_appearance_mem_aux]
  simp

/-- The first-appearance list holds each name once. -/
theorem first_appearance_nodup_aux (ms : List ChunkMetaModel) :
    ∀ acc : List Nat, acc.Nodup →
      (ms.foldl (fun acc2 cm =>
        if acc2.contains cm.measurement_name then acc2
        else acc2 ++ [cm.measurement_name]) acc).Nodup := by
  induction ms with
  | nil => intro acc h; simpa using h
  | cons cm ms ih =>
    intro acc hacc
    simp only [List.foldl_cons]
    by_cases hc : acc.contains cm.measurement_name
    · rw [if_pos hc]
      exact ih acc hacc
    · rw [if_neg hc]
      refine ih (acc ++ [cm.measurement_name]) ?_
      have hnm : cm.measurement_name ∉ acc := by simpa using hc
      simp [List.nodup_append, hacc, hnm]

/-- Nodup of the first-appearance list. -/
theorem first_appearance_nodup (ms : List ChunkMetaModel) :
    (first_appearance ms).Nodup :=
  first_appearance_nodup_aux ms [] List.nodup_nil

/-- Membership is preserved by the offset sort. -/
theorem mem_sort_by_offset (cm : ChunkMetaModel)
    (ms : List ChunkMetaModel) :
    cm ∈ sort_by_offset ms ↔ cm ∈ ms :=
  (List.mergeSort_perm ms offset_le).mem_iff

/-- The offset sort is sorted by ascending header offset. -/
theorem sort_by_offset_sorted (ms : List ChunkMetaModel) :
    List.Sorted (fun a b : ChunkMetaModel =>
      a.offset_of_chunk_header ≤ b.offset_of_chunk_header)
      (sort_by_offset ms) := by
  have h := @List.sorted_mergeSort ChunkMetaModel offset_le
    (fun a b c hab hbc => by
      simp only [offset_le, decide_eq_true_eq] at *
      omega)
    (fun a b => by
      simp only [offset_le, Bool.or_eq_true, decide_eq_true_eq]
      omega)
    ms
  refine h.imp ?_
  intro a b hab
  simpa [offset_le] using hab

/-- Filtering one measurement out of the regrouped flatMap yields that
measurement's offset-sorted section. -/
theorem flatMap_sections_filter (ms : List ChunkMetaModel) (k : Nat)
    (keys : List Nat) (hnd : keys.Nodup) :
    (keys.flatMap (fun k2 =>
        sort_by_offset (ms.filter (fun cm => cm.measurement_name = k2)))
      ).filter (fun cm => cm.measurement_name = k) =
      if k ∈ keys then
        sort_by_offset (ms.filter (fun cm => cm.measurement_name = k))
      else [] := by
  induction keys with
  | nil => simp
  | cons k2 rest ih =>
    rcases List.nodup_cons.mp hnd with ⟨hk2, hrest⟩
    simp only [List.flatMap_cons, List.filter_append, ih hrest]
    by_cases he : k2 = k
    · subst he
      rw [List.filter_eq_self.mpr ?hall]
      case hall =>
        intro cm hcm
        have := List.mem_filter.mp ((mem_sort_by_offset cm _).mp hcm)
        simpa using this.2
      rw [if_neg (fun hmem => hk2 hmem), if_pos (by simp)]
      simp
    · rw [List.filter_eq_nil_iff.mpr ?hnone]
      case hnone =>
        intro cm hcm
        have := List.mem_filter.mp ((mem_sort_by_offset cm _).mp hcm)
        simp only [decide_eq_true_eq] at this ⊢
        rw [this.2]
        exact fun hkk => he hkk
      have hiff : (k ∈ k2 :: rest) = (k ∈ rest) := by
        simp [List.mem_cons, fun hkk : k = k2 => he hkk.symm]
        intro hkk
        exact absurd hkk.symm he
      by_cases hk : k ∈ rest
      · simp [hk, List.mem_cons]
      · have : k ∉ k2 :: rest := by
          simp only [List.mem_cons]
          rintro (h | h)
          · exact he h.symm
          · exact hk h
        simp [hk, this]

/-- The regrouped list holds exactly the group's chunk metas. -/
theorem mem_init_regroup (cm : ChunkMetaModel) (ms : List ChunkMetaModel) :
    cm ∈ init_regroup ms ↔ cm ∈ ms := by
  unfold init_regroup
  simp only [List.mem_flatMap]
  constructor
  · rintro ⟨k, _, hcm⟩
    exact (List.mem_filter.mp ((mem_sort_by_offset cm _).mp hcm)).1
  · intro hcm
    refine ⟨cm.measurement_name, ?_, ?_⟩
    · rw [first_appearance_mem]
      exact List.mem_map.mpr ⟨cm, hcm, rfl⟩
    · rw [mem_sort_by_offset]
      exact List.mem_filter.mpr ⟨hcm, by simp⟩

/-- Lookup after assigning the same key. -/
theorem map_get_put_self {β : Type} (m : List (Nat × β)) (k : Nat)
    (v : β) : map_get (map_put m k v) k = some v := by
  induction m with
  | nil => simp [map_put, map_get]
  | cons p m ih =>
    by_cases hp : p.1 = k
    · simp [map_put, map_get, hp]
    · simp [map_put, map_get, hp, ih]

/-- Lookup after assigning a different key. -/
theorem map_get_put_other {β : Type} (m : List (Nat × β)) (k k2 : Nat)
    (v : β) (h : k ≠ k2) : map_get (map_put m k2 v) k = map_get m k := by
  induction m with
  | nil => simp [map_put, map_get, Ne.symm h]
  | cons p m ih =>
    by_cases hp : p.1 = k2
    · subst hp
      simp [map_put, map_get, Ne.symm h]
    · by_cases hpk : p.1 = k
      · simp [map_put, map_get, hp, hpk, h]
      · simp [map_put, map_get, hp, hpk, ih]

/-- Folding groups whose devices avoid `dev` leaves its entry alone. -/
theorem map_get_fold_not_mem (groups : List (Nat × List ChunkMetaModel))
    (dev : Nat) (h : dev ∉ groups.map (fun g => g.1)) :
    ∀ m0 : List (Nat × List (Nat × List ChunkMetaModel)),
      map_get (groups.foldl (fun m g =>
        map_put m g.1 (tsm_group_by_measurement g.2)) m0) dev =
        map_get m0 dev := by
  induction groups with
  | nil => intro m0; rfl
  | cons g rest ih =>
    intro m0
    simp only [List.map_cons, List.mem_cons] at h
    push_neg at h
    simp only [List.foldl_cons]
    rw [ih h.2, map_get_put_other _ _ _ _ h.1]

/-- With pairwise-distinct devices, the per-device map built by
TSMIterator::init maps each device to its measurement grouping. -/
theorem tsm_build_get (groups : List (Nat × List ChunkMetaModel))
    (hnd : (groups.map (fun g => g.1)).Nodup) (dev : Nat)
    (ms : List ChunkMetaModel) (hmem : (dev, ms) ∈ groups) :
    map_get (tsm_build groups) dev =
      some (tsm_group_by_measurement ms) := by
  unfold tsm_build
  suffices hgen : ∀ m0 : List (Nat × List (Nat × List ChunkMetaModel)),
      map_get (groups.foldl (fun m g =>
        map_put m g.1 (tsm_group_by_measurement g.2)) m0) dev =
        some (tsm_group_by_measurement ms) by
    exact hgen []
  induction groups with
  | nil => exact absurd hmem (List.not_mem_nil _)
  | cons g rest ih =>
    intro m0
    simp only [List.map_cons] at hnd
    rcases List.nodup_cons.mp hnd with ⟨hg, hrest⟩
    simp only [List.foldl_cons]
    rcases List.mem_cons.mp hmem with hcase | hcase
    · have hdev : g.1 = dev := by rw [← hcase]
      have hms : g.2 = ms := by rw [← hcase]
      have hnot : dev ∉ rest.map (fun g2 => g2.1) := by
        rw [← hdev]
        exact hg
      rw [map_get_fold_not_mem rest dev hnot, hdev, hms]
      exact map_get_put_self m0 dev (tsm_group_by_measurement ms)
    · exact ih hrest hcase _

/-- Lookup in a map built from a key list. -/
theorem map_get_map_keys {β : Type} (keys : List Nat) (f : Nat → β)
    (k : Nat) :
    map_get (keys.map (fun k2 => (k2, f k2))) k =
      if k ∈ keys then some (f k) else none := by
  induction keys with
  | nil => simp [map_get]
  | cons k2 rest ih =>
    by_cases h : k2 = k
    · subst h
      simp [map_get]
    · simp [map_get, h, ih, Ne.symm h]

/-- Lookup commutes with mapping the values of an association list. -/
theorem map_get_map_values {β γ : Type} (m : List (Nat × β)) (f : β → γ)
    (k : Nat) :
    map_get (m.map (fun p => (p.1, f p.2))) k = (map_get m k).map f := by
  induction m with
  | nil => rfl
  | cons p m ih =>
    by_cases h : p.1 = k
    · simp [map_get, h]
    · simp [map_get, h, ih]

/-- Default-headed head of a constant-flag pairing. -/
theorem headD_map_pair (l : List ChunkMetaModel) (b : Bool) :
    ((l.map (fun cm => (cm, b))).headD (default_chunk_meta, false)).1 =
      l.headD default_chunk_meta := by
  cases l <;> simp

/-- First projections of a key-indexed pairing. -/
theorem map_fst_map_pair {β : Type} (l : List Nat) (f : Nat → β) :
    ((l.map (fun k => (k, f k))).map (fun e => e.1)) = l := by
  induction l with
  | nil => rfl
  | cons a l ih => simp [ih]

/-- C3: with the writer's per-device chunk-meta accumulation (devices
pairwise distinct in chunk_group_meta_list_), the emitted structure maps
every written device to a measurement-keyed sequence that is sorted by
measurement name without repetition and covers exactly the device's
measurement names; and for every measurement of the device the emitted
TimeseriesIndex covers exactly the device's chunk metas of that
measurement, ordered by ascending offset_of_chunk_header, with ts_type
equal to (1 if the group holds more than one chunk else 0) OR'd with the
first chunk's mask, the first chunk's data type, per-chunk statistics
serialized with each chunk meta if and only if the group holds more than
one chunk, and the index statistic assembled by merging every chunk
meta's statistic of the group in order. -/
theorem c3_timeseries_index_build
    (groups : List (Nat × List ChunkMetaModel))
    (hdev : (groups.map (fun g => g.1)).Nodup)
    (dev : Nat) (ms : List ChunkMetaModel) (hmem : (dev, ms) ∈ groups)
    (m : Nat) (hm : m ∈ ms.map (fun cm => cm.measurement_name)) :
    ∃ entries : List (Nat × TimeseriesIndexModel),
      map_get (tsm_emit groups) dev = some entries ∧
      List.Sorted (· ≤ ·) (entries.map (fun e => e.1)) ∧
      (entries.map (fun e => e.1)).Nodup ∧
      (∀ m2, m2 ∈ entries.map (fun e => e.1) ↔
        m2 ∈ ms.map (fun cm => cm.measurement_name)) ∧
      ∃ ts : TimeseriesIndexModel,
        map_get entries m = some ts ∧
        (ts.chunk_metas.map (fun e => e.1)).Perm
          (ms.filter (fun cm => cm.measurement_name = m)) ∧
        List.Sorted (fun a b : ChunkMetaModel =>
          a.offset_of_chunk_header ≤ b.offset_of_chunk_header)
          (ts.chunk_metas.map (fun e => e.1)) ∧
        ts.ts_type = (if 1 < ts.chunk_metas.length then 1 else 0) |||
          ((ts.chunk_metas.headD (default_chunk_meta, false)).1).mask ∧
        ts.data_type =
          ((ts.chunk_metas.headD (default_chunk_meta, false)).1).data_type ∧
        (∀ e ∈ ts.chunk_metas,
          e.2 = decide (1 < ts.chunk_metas.length)) ∧
        ts.stat_merges =
          (ts.chunk_metas.map (fun e => e.1)).map (fun cm => cm.stat) := by
  have hbuild := tsm_build_get groups hdev dev ms hmem
  have hentries : (tsm_group_by_measurement ms).map
      (fun g => (g.1, tsm_get_next_index g.2)) =
      (((init_regroup ms).map
        (fun cm => cm.measurement_name)).toFinset.sort (· ≤ ·)).map
        (fun k => (k, tsm_get_next_index ((init_regroup ms).filter
          (fun cm => cm.measurement_name = k)))) := by
    unfold tsm_group_by_measurement
    rw [List.map_map]
    rfl
  refine ⟨(tsm_group_by_measurement ms).map
    (fun g => (g.1, tsm_get_next_index g.2)), ?_, ?_, ?_, ?_, ?_⟩
  · unfold tsm_emit
    rw [map_get_map_values (tsm_build groups)
      (fun d2 => d2.map (fun g => (g.1, tsm_get_next_index g.2))) dev,
      hbuild]
    rfl
  · rw [hentries, map_fst_map_pair]
    exact Finset.sort_sorted _ _
  · rw [hentries, map_fst_map_pair]
    exact Finset.sort_nodup _ _
  · intro m2
    rw [hentries, map_fst_map_pair, Finset.mem_sort, List.mem_toFinset]
    constructor
    · intro h2
      rcases List.mem_map.mp h2 with ⟨cm, hcm, rfl⟩
      exact List.mem_map.mpr ⟨cm, (mem_init_regroup cm ms).mp hcm, rfl⟩
    · intro h2
      rcases List.mem_map.mp h2 with ⟨cm, hcm, rfl⟩
      exact List.mem_map.mpr ⟨cm, (mem_init_regroup cm ms).mpr hcm, rfl⟩
  · have hmk : m ∈ (((init_regroup ms).map
        (fun cm => cm.measurement_name)).toFinset.sort (· ≤ ·)) := by
      rw [Finset.mem_sort, List.mem_toFinset]
      rcases List.mem_map.mp hm with ⟨cm, hcm, rfl⟩
      exact List.mem_map.mpr ⟨cm, (mem_init_regroup cm ms).mpr hcm, rfl⟩
    have hfa : m ∈ first_appearance ms := (first_appearance_mem m ms).mpr hm
    have hfilter : (init_regroup ms).filter
        (fun cm => cm.measurement_name = m) =
        sort_by_offset (ms.filter (fun cm => cm.measurement_name = m)) := by
      unfold init_regroup
      rw [flatMap_sections_filter ms m (first_appearance ms)
        (first_appearance_nodup ms), if_pos hfa]
    have hentry : map_get ((tsm_group_by_measurement ms).map
        (fun g => (g.1, tsm_get_next_index g.2))) m =
        some (tsm_get_next_index (sort_by_offset
          (ms.filter (fun cm => cm.measurement_name = m)))) := by
      rw [hentries, map_get_map_keys, if_pos hmk, hfilter]
    refine ⟨tsm_get_next_index (sort_by_offset
      (ms.filter (fun cm => cm.measurement_name = m))), hentry, ?_, ?_,
      ?_, ?_, ?_, ?_⟩
    · have hfst : ((tsm_get_next_index (sort_by_offset
          (ms.filter (fun cm => cm.measurement_name = m)))).chunk_metas.map
          (fun e => e.1)) = sort_by_offset
          (ms.filter (fun cm => cm.measurement_name = m)) := by
        simp [tsm_get_next_index, List.map_map, Function.comp_def]
      rw [hfst]
      exact List.mergeSort_perm _ offset_le
    · have hfst : ((tsm_get_next_index (sort_by_offset
          (ms.filter (fun cm => cm.measurement_name = m)))).chunk_metas.map
          (fun e => e.1)) = sort_by_offset
          (ms.filter (fun cm => cm.measurement_name = m)) := by
        simp [tsm_get_next_index, List.map_map, Function.comp_def]
      rw [hfst]
      exact sort_by_offset_sorted _
    · generalize sort_by_offset
        (ms.filter (fun cm => cm.measurement_name = m)) = l
      cases l <;> simp [tsm_get_next_index]
    · generalize sort_by_offset
        (ms.filter (fun cm => cm.measurement_name = m)) = l
      cases l <;> simp [tsm_get_next_index]
    · intro e he
      simp only [tsm_get_next_index, List.mem_map] at he
      rcases he with ⟨cm, _, rfl⟩
      simp [tsm_get_next_index]
    · simp [tsm_get_next_index, List.map_map]

/-- Concrete chunk metas for one device: measurement 5 written in two
flushed chunk groups, the later chunk appearing first. -/
def c3ms : List ChunkMetaModel :=
  [{ measurement_name := 5, offset_of_chunk_header := 200, mask := 0,
     data_type := 3, stat := 42 },
   { measurement_name := 5, offset_of_chunk_header := 100, mask := 0,
     data_type := 3, stat := 41 }]

/-- Concrete accumulated chunk-group list with a single device. -/
def c3groups : List (Nat × List ChunkMetaModel) :=
  [(1, c3ms)]

/-- Witness for C3 at a concrete device and measurement. -/
theorem c3_timeseries_index_build_witness :
    ((c3groups.map (fun g => g.1)).Nodup ∧
      ((1 : Nat), c3ms) ∈ c3groups ∧
      (5 : Nat) ∈ c3ms.map (fun cm => cm.measurement_name)) ∧
    ∃ entries : List (Nat × TimeseriesIndexModel),
      map_get (tsm_emit c3groups) 1 = some entries ∧
      List.Sorted (· ≤ ·) (entries.map (fun e => e.1)) ∧
      (entries.map (fun e => e.1)).Nodup ∧
      (∀ m2, m2 ∈ entries.map (fun e => e.1) ↔
        m2 ∈ c3ms.map (fun cm => cm.measurement_name)) ∧
      ∃ ts : TimeseriesIndexModel,
        map_get entries 5 = some ts ∧
        (ts.chunk_metas.map (fun e => e.1)).Perm
          (c3ms.filter (fun cm => cm.measurement_name = 5)) ∧
        List.Sorted (fun a b : ChunkMetaModel =>
          a.offset_of_chunk_header ≤ b.offset_of_chunk_header)
          (ts.chunk_metas.map (fun e => e.1)) ∧
        ts.ts_type = (if 1 < ts.chunk_metas.length then 1 else 0) |||
          ((ts.chunk_metas.headD (default_chunk_meta, false)).1).mask ∧
        ts.data_type =
          ((ts.chunk_metas.headD (default_chunk_meta, false)).1).data_type ∧
        (∀ e ∈ ts.chunk_metas,
          e.2 = decide (1 < ts.chunk_metas.length)) ∧
        ts.stat_merges =
          (ts.chunk_metas.map (fun e => e.1)).map (fun cm => cm.stat) :=
  ⟨⟨by decide, by decide, by decide⟩,
    c3_timeseries_index_build c3groups (by decide) 1 c3ms (by decide) 5
      (by decide)⟩
